import Mathlib

/-!
Shallow embedding of the OpenRXN model-compilation and simulation kernel,
with theorems checking the natural-language specification against the code.

Conventions of the embedding:
* Physical quantities are represented by their magnitudes in the canonical
  units of the engine (1/s for first-order rates, nm^d/s for DivByV rates),
  as rational numbers; `.ito(canonical)` on an already-canonical quantity is
  the identity on the magnitude.
* numpy arrays are `List ℚ`; `y[idx]` appears as `List.getD y idx 0`
  (every index the engine produces is in bounds, where the default is inert).
* Python dicts are association lists with first-match lookup and
  replace-in-place update, mirroring insertion-order semantics.
* Fallible constructs (KeyError, NameError, ValueError) appear as
  `Except String`.
-/

namespace OpenRXN

/-! ## Python dict primitives -/

/-- First-match lookup in an association list (Python `d[k]` / `k in d`). -/
def dictGet {α β : Type} [DecidableEq α] (d : List (α × β)) (k : α) : Option β :=
  (d.find? (fun kv => kv.1 = k)).map (·.2)

/-- Python `d[k] = v`: replace the value at an existing key in place,
otherwise append the new binding. -/
def dictSet {α β : Type} [DecidableEq α] (d : List (α × β)) (k : α) (v : β) :
    List (α × β) :=
  match d with
  | [] => [(k, v)]
  | kv :: rest =>
    if kv.1 = k then (k, v) :: rest else kv :: dictSet rest k v

/-! ## Gillespie propagator (`openrxn/propagators.py`)

`Gillespie(processes, update_list, time_range, y0)` works on a process table
whose entries are `(rate, q_list, delta_list)`. -/

/-- One entry of the process table handed to the Gillespie propagator:
`(rate, q_list, delta_list)` with `q_list` a list of `(index, number)` pairs
and `delta_list` a list of `(index, delta)` pairs. -/
structure GProc where
  rate : ℚ
  q_list : List (ℕ × ℕ)
  delta_list : List (ℕ × ℚ)
  deriving Repr, DecidableEq

instance : Inhabited GProc := ⟨⟨0, [], []⟩⟩

/-- The propensity of one process at state `y`, exactly as the propagator
computes it: start from `r[i] = p[0]`, then for each `(idx, num)` in the
q_list multiply by `max(0, y[idx]-j)` for `j = 0 .. num-1`. -/
def propensity (y : List ℚ) (p : GProc) : ℚ :=
  p.q_list.foldl
    (fun acc pr =>
      (List.range pr.2).foldl
        (fun (a : ℚ) (j : ℕ) => a * max 0 (y.getD pr.1 0 - (j : ℚ))) acc)
    p.rate

/-- State of the propagator between loop iterations.  The field `y0mem`
models the caller's array (the argument `y0`), `y` the local copy made by
`y = y0.copy()`; the source only ever assigns into `y`, `r` and `t`. -/
structure GState where
  y0mem : List ℚ
  y : List ℚ
  r : List ℚ
  t : ℚ
  deriving Repr, DecidableEq

/-- Entry into `Gillespie`: `t = time_range[0]`, `y = y0.copy()`, and the
initial propensity vector `r` built from `processes` at `y`. -/
def gillespieEnter (ps : List GProc) (t0 : ℚ) (y0 : List ℚ) : GState :=
  { y0mem := y0, y := y0, r := ps.map (propensity y0), t := t0 }

/-- Apply `delta_list` to `y` (`y[idx] += d` for each `(idx, d)`). -/
def applyDeltas : List (ℕ × ℚ) → List ℚ → List ℚ
  | [], y => y
  | pr :: ds, y => applyDeltas ds (y.set pr.1 (y.getD pr.1 0 + pr.2))

/-- The processes to refresh after a firing (`to_update`): concatenation of
`update_list[idx]` over the `(idx, d)` of the fired delta_list. -/
def collectUpdates (upd : List (List ℕ)) : List (ℕ × ℚ) → List ℕ → List ℕ
  | [], acc => acc
  | pr :: ds, acc => collectUpdates upd ds (acc ++ upd.getD pr.1 [])

/-- Recompute `r[k]` from scratch for each `k` in `to_update` (the source
iterates over `set(to_update)`; each visit writes the same value, so
processing the list with its duplicates yields the same array). -/
def refreshR (ps : List GProc) (y : List ℚ) : List ℚ → List ℕ → List ℚ
  | r, [] => r
  | r, k :: ks => refreshR ps y (r.set k (propensity y (ps.getD k default))) ks

/-- One iteration of the `while t < time_range[1]` body.  The iteration's
random draws enter as `choice` (the index produced by `np.random.choice`)
and `negLogA` (the value `-log(a)` for `a = np.random.random()`).  When
`r.sum() == 0`, `oorsum` is infinite, `r*oorsum` is NaN and
`np.random.choice` raises `ValueError`; the embedding surfaces that as
`Except.error`. -/
def gillespieStep (ps : List GProc) (upd : List (List ℕ)) (choice : ℕ)
    (negLogA : ℚ) (st : GState) : Except String GState :=
  if st.r.sum = 0 then
    .error "ValueError: probabilities contain NaN"
  else
    match ps.get? choice with
    | none => .error "choice out of range"
    | some p =>
      let oorsum := 1 / st.r.sum
      let toUpdate := collectUpdates upd p.delta_list []
      let y1 := applyDeltas p.delta_list st.y
      let t1 := st.t + negLogA * oorsum
      let r1 := refreshR ps y1 st.r toUpdate
      .ok { y0mem := st.y0mem, y := y1, r := r1, t := t1 }

/-- The propagator loop, with the stream of random draws made explicit
(one `(choice, -log a)` pair per iteration); the stream's length bounds the
number of iterations the run is examined for. -/
def gillespieRun (ps : List GProc) (upd : List (List ℕ)) (tEnd : ℚ) :
    List (ℕ × ℚ) → GState → Except String GState
  | [], st => if st.t < tEnd then .error "rng stream exhausted" else .ok st
  | (c, nl) :: rest, st =>
    if st.t < tEnd then
      match gillespieStep ps upd c nl st with
      | .error e => .error e
      | .ok st1 => gillespieRun ps upd tEnd rest st1
    else .ok st

/-- `Gillespie(processes, update_list, time_range, y0)` returning
`(y, t)` together with the caller's array `y0` as the run left it. -/
def Gillespie (ps : List GProc) (upd : List (List ℕ)) (tRange : ℚ × ℚ)
    (y0 : List ℚ) (stream : List (ℕ × ℚ)) :
    Except String (List ℚ × ℚ × List ℚ) :=
  match gillespieRun ps upd tRange.2 stream (gillespieEnter ps tRange.1 y0) with
  | .error e => .error e
  | .ok st => .ok (st.y, st.t, st.y0mem)

/-! ## Dependency index (`GillespieSystem._build_processes`, tail loop)

```
process_update_list = [[] for idx in range(self.state.size)]
for i,p in enumerate(processes):
    for ID,delta in p[2]:
        process_update_list[ID].append(i)
```
(The source runs this block once per compartment iteration, each time from
scratch over the cumulative `processes` list, so its final value is the
single pass below over the complete process table.) -/

/-- Inner loop: append process index `i` to the bucket of every state
position appearing in the delta_list `ds`. -/
def appendToBuckets (i : ℕ) : List (ℕ × ℚ) → List (List ℕ) → List (List ℕ)
  | [], acc => acc
  | pr :: ds, acc => appendToBuckets i ds (acc.set pr.1 (acc.getD pr.1 [] ++ [i]))

/-- Outer loop over `enumerate(processes)` starting at index `i0`. -/
def buildUpdateListAux : ℕ → List GProc → List (List ℕ) → List (List ℕ)
  | _, [], acc => acc
  | i0, p :: rest, acc => buildUpdateListAux (i0 + 1) rest (appendToBuckets i0 p.delta_list acc)

/-- `process_update_list` as `_build_processes` returns it. -/
def buildUpdateList (ps : List GProc) (size : ℕ) : List (List ℕ) :=
  buildUpdateListAux 0 ps (List.replicate size [])

/-- The characterization the specification gives for the dependency index:
each state position `b` is paired with exactly the process indices whose
`q_list` contains `b`. -/
def DepIndexFromQList (ps : List GProc) (size : ℕ) (upd : List (List ℕ)) : Prop :=
  ∀ b k : ℕ, k ∈ upd.getD b [] ↔
    (b < size ∧ k < ps.length ∧ ∃ m : ℕ, (b, m) ∈ (ps.getD k default).q_list)

/-- The birth process `∅ → A` (`rate = 1`, empty q_list, delta `+1` at
position 0), as `_build_processes` emits for a forward reaction with no
reactants. -/
def birthProc : GProc := { rate := 1, q_list := [], delta_list := [(0, 1)] }

/-! ## Connections (`openrxn/connections.py`)

Rates are magnitudes in the canonical unit 1/s; `.ito(1/unit.sec)` on such
a magnitude is the identity. -/

/-- A value of a `species_rates` dictionary entry as supplied to a
connection constructor: a scalar quantity or a Python tuple. -/
inductive RateVal where
  | scalar (k : ℚ)
  | tuple (ks : List ℚ)
  deriving Repr, DecidableEq

/-- `.ito(1/unit.sec)` on a magnitude already held in 1/s. -/
def itoPerSec (k : ℚ) : ℚ := k

/-- One iteration of the `AnisotropicConnection.__init__` loop: a scalar is
broadcast to `(r, r)` with a warning; a tuple must have length 2; both
components are then coerced to 1/s. -/
def anisoNormEntry : RateVal → Except String (ℚ × ℚ)
  | .scalar k => .ok (itoPerSec k, itoPerSec k)
  | .tuple ks =>
    match ks with
    | [k1, k2] => .ok (itoPerSec k1, itoPerSec k2)
    | _ => .error "rate tuple must be length 2"

/-- The `AnisotropicConnection.__init__` normalization loop over the
`species_rates` items, in dictionary order. -/
def anisotropicInit : List (String × RateVal) → Except String (List (String × (ℚ × ℚ)))
  | [] => .ok []
  | (s, r) :: rest =>
    match anisoNormEntry r with
    | .error e => .error e
    | .ok pr =>
      match anisotropicInit rest with
      | .error e => .error e
      | .ok rest1 => .ok ((s, pr) :: rest1)

/-- A constructed `AnisotropicConnection`: after `__init__` every
`species_rates` value is a pair of 1/s magnitudes. -/
structure AnisotropicConnection where
  species_rates : List (String × (ℚ × ℚ))
  dim : ℕ
  deriving Repr, DecidableEq

/-- `AnisotropicConnection(species_rates, dim)`. -/
def mkAnisotropicConnection (sr : List (String × RateVal)) (dim : ℕ) :
    Except String AnisotropicConnection :=
  match anisotropicInit sr with
  | .error e => .error e
  | .ok tbl => .ok { species_rates := tbl, dim := dim }

/-- `AnisotropicConnection._flip_tuple`. -/
def flip_tuple (t : ℚ × ℚ) : ℚ × ℚ := (t.2, t.1)

/-- `AnisotropicConnection.reverse`: flip every rate pair and construct a
new connection from the flipped dictionary (dim falls back to the
constructor default 3). -/
def AnisotropicConnection.reverse (c : AnisotropicConnection) :
    Except String AnisotropicConnection :=
  mkAnisotropicConnection
    (c.species_rates.map
      (fun sv => (sv.1, RateVal.tuple [(flip_tuple sv.2).1, (flip_tuple sv.2).2])))
    3

/-- `IsotropicConnection.__init__`: the loop body's first statement is
`if not isinstance(k, tuple)`, but no name `k` is in scope anywhere in the
module (the loop variable is `r`), so the first iteration raises
`NameError`; only an empty `species_rates` dictionary completes the
loop. -/
def isotropicInit : List (String × RateVal) → Except String (List (String × (ℚ × ℚ)))
  | [] => .ok []
  | _ :: _ => .error "NameError: name k is not defined"

/-! ## Reporters (`openrxn/systems/reporters.py`) -/

/-- `np.max` of a 1-d array; empty arrays raise. -/
def npMax : List ℚ → Option ℚ
  | [] => none
  | x :: xs => some (xs.foldl max x)

/-- Scan state for `np.argmax`: best index, best value, current index. -/
def npArgmaxAux : ℕ → ℚ → ℕ → List ℚ → ℕ
  | bi, _, _, [] => bi
  | bi, bv, ci, x :: xs =>
    if bv < x then npArgmaxAux ci x (ci + 1) xs else npArgmaxAux bi bv (ci + 1) xs

/-- `np.argmax` of a 1-d array: index of the first occurrence of the
maximum; empty arrays raise. -/
def npArgmax : List ℚ → Option ℕ
  | [] => none
  | x :: xs => some (npArgmaxAux 0 x 1 xs)

/-- numpy fancy indexing `Q[selection_idxs]` (selections used by reporters
are in bounds, where the default is inert). -/
def fancyIndex (Q : List ℚ) (sel : List ℕ) : List ℚ :=
  sel.map (fun i => Q.getD i 0)

/-- `MinReporter.report(t, Q)`: the payload the source appends is
`(np.max(tmp), np.argmax(tmp))` over `tmp = Q[selection_idxs]` (the class
docstring promises `(min, argmin)`). -/
def minReporterReport (sel : List ℕ) (t : ℚ) (Q : List ℚ)
    (reports : List (ℚ × ℚ × ℕ)) : Except String (List (ℚ × ℚ × ℕ)) :=
  let tmp := fancyIndex Q sel
  match npMax tmp, npArgmax tmp with
  | some mx, some am => .ok (reports ++ [(t, mx, am)])
  | _, _ => .error "ValueError: zero-size array reduction"

/-! ## ODE derivative builder, connection terms
(`ODESystem._build_dqdt`, lines 174-197) -/

/-- The connection object stored as `conn[1]` on an edge: whether the
object is an instance of `DivByVConnection`, and its rate table (pairs of
canonical magnitudes). -/
structure ConnObj where
  isDivByV : Bool
  species_rates : List (String × (ℚ × ℚ))
  deriving Repr, DecidableEq

/-- The neighbor compartment object stored as `conn[0]` on an edge (in a
FlatModel it is the object `self.model.compartments[other_lab]` as well):
whether it is a `Reservoir`, and its volume magnitude. -/
structure CompObj where
  isReservoir : Bool
  volume : ℚ
  deriving Repr, DecidableEq

/-- `isinstance(conn, DivByVConnection)` exactly as `_build_dqdt` writes
it: `conn` is the `(neighbor, connection)` TUPLE produced by
`c.connections.items()`, and a tuple is an instance of no Connection
class, so the test is False for every edge regardless of `conn[1]`. -/
def isinstanceTupleDivByV (conn : CompObj × ConnObj) : Bool := false

/-- One ODE derivative term `(rate, q_list, n_per)`. -/
structure DTerm where
  rate : ℚ
  q_idxs : List ℕ
  n_per : ℕ
  deriving Repr, DecidableEq

/-- The connection part of `_build_dqdt` for state position `i` carrying
species `s` in a compartment of volume `cVolume`: returns
`(sinks, sources, sources_reservoir)` in loop order.  `idxOther lab`
models `self.state.index[other_lab][s]`, and a reservoir source is
recorded as `(k_in, other_lab)` standing for `(k_in, conc_func, 1)`. -/
def buildConnTerms (i : ℕ) (s : String) (cVolume : ℚ) (idxOther : String → ℕ) :
    List (String × (CompObj × ConnObj)) →
    List DTerm × List DTerm × List (ℚ × String)
  | [] => ([], [], [])
  | (lab, conn) :: rest =>
    let tails := buildConnTerms i s cVolume idxOther rest
    match dictGet conn.2.species_rates s with
    | none => tails
    | some kpair =>
      let sink : DTerm :=
        if isinstanceTupleDivByV conn then
          { rate := kpair.1 / cVolume, q_idxs := [i], n_per := 1 }
        else
          { rate := kpair.1, q_idxs := [i], n_per := 1 }
      if conn.1.isReservoir then
        (sink :: tails.1, tails.2.1, (kpair.2, lab) :: tails.2.2)
      else
        let src : DTerm :=
          if isinstanceTupleDivByV conn then
            { rate := kpair.2 / conn.1.volume, q_idxs := [idxOther lab], n_per := 1 }
          else
            { rate := kpair.2, q_idxs := [idxOther lab], n_per := 1 }
        (sink :: tails.1, src :: tails.2.1, tails.2.2)

/-! ## 2D compartment arrays (`CompartmentArray2D.__init__`) -/

/-- `make_ID(array_ID, comp_ID)` for an in-array 2D compartment:
`array_ID + '-' + join_tuple(comp_ID)`. -/
def make_ID2 (aID : String) (compID : ℕ × ℕ) : String :=
  aID ++ "-" ++ toString compID.1 ++ "_" ++ toString compID.2

/-- A `Compartment2D` as the 2D array constructor creates it.  The edge
dictionary maps the neighbor's connection tag to the neighbor's grid key
(every edge carries the one shared `conn_type` object, which is elided). -/
structure Comp2D where
  ID : ℕ × ℕ
  pos : List (ℚ × ℚ)
  array_ID : String
  volume : ℚ
  connections : List (String × (ℕ × ℕ))
  deriving Repr, DecidableEq

/-- `self.compartments[src].connect(self.compartments[dst], conn_type)`:
both dictionary subscripts are evaluated (source first), raising KeyError
on a missing key, and the edge is written under
`make_ID(dst.array_ID, dst.ID)`. -/
def connect2D (comps : List ((ℕ × ℕ) × Comp2D)) (src dst : ℕ × ℕ) :
    Except String (List ((ℕ × ℕ) × Comp2D)) :=
  match dictGet comps src with
  | none => .error ("KeyError: " ++ toString src)
  | some cs =>
    match dictGet comps dst with
    | none => .error ("KeyError: " ++ toString dst)
    | some cd =>
      .ok (dictSet comps src
        { cs with connections := dictSet cs.connections (make_ID2 cd.array_ID cd.ID) dst })

/-- The compartment-creation loops of `CompartmentArray2D.__init__`:
`for i in range(self.nx-1): for j in range(self.ny-1): ...` with
`self.nx = len(x_pos)-1` and `self.ny = len(y_pos)-1`. -/
def mkComps2D (aID : String) (x_pos y_pos : List ℚ) : List ((ℕ × ℕ) × Comp2D) :=
  let nx := x_pos.length - 1
  let ny := y_pos.length - 1
  (List.range (nx - 1)).foldl
    (fun acc i =>
      (List.range (ny - 1)).foldl
        (fun acc2 j =>
          dictSet acc2 (i, j)
            { ID := (i, j),
              pos := [(x_pos.getD i 0, x_pos.getD (i + 1) 0),
                      (y_pos.getD j 0, y_pos.getD (j + 1) 0)],
              array_ID := aID,
              volume := (x_pos.getD (i + 1) 0 - x_pos.getD i 0) *
                        (y_pos.getD (j + 1) 0 - y_pos.getD j 0),
              connections := [] })
        acc)
    []

/-- The four neighbor conditionals of the wiring loop body at `(i, j)`. -/
def wire2DCell (nx ny i j : ℕ) (comps : List ((ℕ × ℕ) × Comp2D)) :
    Except String (List ((ℕ × ℕ) × Comp2D)) := do
  let c1 ← if 0 < i then connect2D comps (i, j) (i - 1, j) else pure comps
  let c2 ← if i < nx - 1 then connect2D c1 (i, j) (i + 1, j) else pure c1
  let c3 ← if 0 < j then connect2D c2 (i, j) (i, j - 1) else pure c2
  if j < ny - 1 then connect2D c3 (i, j) (i, j + 1) else pure c3

/-- Inner wiring loop `for j in range(self.ny)`. -/
def wire2DRow (nx ny i : ℕ) : List ℕ → List ((ℕ × ℕ) × Comp2D) →
    Except String (List ((ℕ × ℕ) × Comp2D))
  | [], comps => .ok comps
  | j :: js, comps =>
    match wire2DCell nx ny i j comps with
    | .error e => .error e
    | .ok comps1 => wire2DRow nx ny i js comps1

/-- Outer wiring loop `for i in range(self.nx)`. -/
def wire2DAll (nx ny : ℕ) : List ℕ → List ((ℕ × ℕ) × Comp2D) →
    Except String (List ((ℕ × ℕ) × Comp2D))
  | [], comps => .ok comps
  | i :: rest, comps =>
    match wire2DRow nx ny i (List.range ny) comps with
    | .error e => .error e
    | .ok comps1 => wire2DAll nx ny rest comps1

/-- Periodic wrap in x: `for j in range(self.ny)` connect `(0, j)` and
`(nx-1, j)` in both directions. -/
def wrapX2D (nx : ℕ) : List ℕ → List ((ℕ × ℕ) × Comp2D) →
    Except String (List ((ℕ × ℕ) × Comp2D))
  | [], comps => .ok comps
  | j :: js, comps =>
    match connect2D comps (0, j) (nx - 1, j) with
    | .error e => .error e
    | .ok c1 =>
      match connect2D c1 (nx - 1, j) (0, j) with
      | .error e => .error e
      | .ok c2 => wrapX2D nx js c2

/-- Periodic wrap in y: `for i in range(self.nx)` connect `(i, 0)` and
`(i, ny-1)` in both directions. -/
def wrapY2D (ny : ℕ) : List ℕ → List ((ℕ × ℕ) × Comp2D) →
    Except String (List ((ℕ × ℕ) × Comp2D))
  | [], comps => .ok comps
  | i :: rest, comps =>
    match connect2D comps (i, 0) (i, ny - 1) with
    | .error e => .error e
    | .ok c1 =>
      match connect2D c1 (i, ny - 1) (i, 0) with
      | .error e => .error e
      | .ok c2 => wrapY2D ny rest c2

/-- `CompartmentArray2D.__init__(array_ID, x_pos, y_pos, conn_type,
periodic)`: create the compartment dictionary, then run the wiring loops
and the periodic wraps. -/
def array2DInit (aID : String) (x_pos y_pos : List ℚ) (periodic : Bool × Bool) :
    Except String (List ((ℕ × ℕ) × Comp2D)) :=
  let nx := x_pos.length - 1
  let ny := y_pos.length - 1
  let comps := mkComps2D aID x_pos y_pos
  match wire2DAll nx ny (List.range nx) comps with
  | .error e => .error e
  | .ok c1 =>
    match (if periodic.1 then wrapX2D nx (List.range ny) c1 else .ok c1) with
    | .error e => .error e
    | .ok c2 => if periodic.2 then wrapY2D ny (List.range nx) c2 else .ok c2

/-! ## State ↔ dataframe (`openrxn/systems/state.py`) -/

/-- The dataframe `State.to_dataframe` produces and `State.__init__`
consumes: columns `species` and `compartment` (always present), `q_val`
(written by export, ignored by import), and the optional position columns
(whose cells may be Python `None` for absent axes). -/
structure DFrame where
  species : List String
  compartment : List String
  q_val : Option (List ℚ)
  x_pos : Option (List (Option ℚ))
  y_pos : Option (List (Option ℚ))
  z_pos : Option (List (Option ℚ))
  deriving Repr, DecidableEq

/-- A `State`: the index dict-of-dicts and the parallel arrays. -/
structure PyState where
  index : List (String × List (String × ℕ))
  species : List String
  compartment : List String
  q_val : List ℚ
  x_pos : Option (List (Option ℚ))
  y_pos : Option (List (Option ℚ))
  z_pos : Option (List (Option ℚ))
  deriving Repr, DecidableEq

/-- `State.to_dataframe`: copy the arrays into columns (position columns
when the attributes exist). -/
def to_dataframe (st : PyState) : DFrame :=
  { species := st.species, compartment := st.compartment,
    q_val := some st.q_val,
    x_pos := st.x_pos, y_pos := st.y_pos, z_pos := st.z_pos }

/-- One `_init_from_df` index assignment
`self.index[df['compartment'][i]][df['species'][i]] = i`, creating the
inner dictionary when the compartment key is new. -/
def dfIndexInsert (idx : List (String × List (String × ℕ))) (c s : String)
    (i : ℕ) : List (String × List (String × ℕ)) :=
  match dictGet idx c with
  | none => dictSet idx c (dictSet [] s i)
  | some d => dictSet idx c (dictSet d s i)

/-- The `_init_from_df` index-building loop over the rows
`(i, compartment[i], species[i])`. -/
def buildDfIndex : List (ℕ × String × String) →
    List (String × List (String × ℕ)) → List (String × List (String × ℕ))
  | [], idx => idx
  | (i, c, s) :: rows, idx => buildDfIndex rows (dfIndexInsert idx c s i)

/-- The rows `(i, df['compartment'][i], df['species'][i])` for
`i in range(len(df['species']))` (in-bounds when the two columns have
equal length, as every exported dataframe does; the default is inert). -/
def dfRows (df : DFrame) : List (ℕ × String × String) :=
  (List.range df.species.length).map
    (fun i => (i, df.compartment.getD i "", df.species.getD i ""))

/-- `State(dataframe=df)`: `_init_from_df` copies the columns and builds
the index; `__init__` then sets `size = len(compartment)` and a fresh zero
`q_val`. -/
def init_from_df (df : DFrame) : PyState :=
  { species := df.species, compartment := df.compartment,
    x_pos := df.x_pos, y_pos := df.y_pos, z_pos := df.z_pos,
    index := buildDfIndex (dfRows df) [],
    q_val := List.replicate df.compartment.length 0 }

/-- Lookup `index[c][s]` in a raw index structure. -/
def indexLookup (idx : List (String × List (String × ℕ))) (c s : String) :
    Option ℕ :=
  match dictGet idx c with
  | none => none
  | some d => dictGet d s

/-- `state.index[c][s]` as a partial lookup. -/
def stateIndexGet (st : PyState) (c s : String) : Option ℕ :=
  indexLookup st.index c s

/-- The index agrees with the parallel arrays: `index[c][s] = i` exactly
when row `i` carries `(c, s)`.  Both `State` constructors establish
this. -/
def IndexConsistent (st : PyState) : Prop :=
  ∀ c s : String, ∀ i : ℕ, stateIndexGet st c s = some i ↔
    (st.compartment[i]? = some c ∧ st.species[i]? = some s)

/-- Whether a row of a dataframe carries the pair `(c, s)`. -/
def rowMatches (c s : String) (r : ℕ × String × String) : Bool :=
  r.2.1 = c ∧ r.2.2 = s

/-- A one-row state over compartment `c` and species `A`, with the index
both constructors would build for it. -/
def sampleState : PyState :=
  { index := [("c", [("A", 0)])],
    species := ["A"], compartment := ["c"], q_val := [0],
    x_pos := none, y_pos := none, z_pos := none }

end OpenRXN

namespace OpenRXN

/-! ## C7: the propensity is the rate times a falling factorial -/

theorem range_foldl_mul_max (y : List ℚ) (i : ℕ) :
    ∀ (m : ℕ) (b : ℚ),
    (List.range m).foldl
      (fun (a : ℚ) (j : ℕ) => a * max 0 (y.getD i 0 - (j : ℚ))) b
    = b * ((List.range m).map
        (fun (j : ℕ) => max 0 (y.getD i 0 - (j : ℚ)))).prod := by
  intro m
  induction m with
  | zero => intro b; simp
  | succ n ihn =>
    intro b
    rw [List.range_succ]
    rw [List.foldl_append, List.map_append, List.prod_append]
    simp only [List.foldl_cons, List.foldl_nil, List.map_cons, List.map_nil,
      List.prod_cons, List.prod_nil]
    rw [ihn]
    ring

theorem propensity_foldl_mul (y : List ℚ) (l : List (ℕ × ℕ)) (a : ℚ) :
    l.foldl
      (fun acc pr =>
        (List.range pr.2).foldl
          (fun (b : ℚ) (j : ℕ) => b * max 0 (y.getD pr.1 0 - (j : ℚ))) acc)
      a
    = a * (l.map (fun pr =>
        ((List.range pr.2).map
          (fun (j : ℕ) => max 0 (y.getD pr.1 0 - (j : ℚ)))).prod)).prod := by
  induction l generalizing a with
  | nil => simp
  | cons hd tl ih =>
    simp only [List.foldl_cons, List.map_cons, List.prod_cons]
    rw [ih, range_foldl_mul_max]
    ring

/-- C7: for every process `p` and every non-negative integer state vector
`Q`, the propensity the Gillespie propagator computes at segment start is
`rate · Π_{(idx,m) ∈ q_list} Π_{k=0..m-1} max(0, Q[idx]-k)`, the falling
factorial of `Q[idx]` floored at zero — also for multiplicities `m ≥ 2`. -/
theorem gillespie_propensity_falling_factorial
    (ps : List GProc) (Q : List ℕ) (t0 : ℚ) (j : ℕ) (hj : j < ps.length) :
    (gillespieEnter ps t0 (Q.map (fun n => (n : ℚ)))).r.get? j
    = some ((ps.get ⟨j, hj⟩).rate *
        ((ps.get ⟨j, hj⟩).q_list.map (fun pr =>
          ((List.range pr.2).map
            (fun (k : ℕ) =>
              max 0 ((Q.map (fun n => (n : ℚ))).getD pr.1 0 - (k : ℚ)))).prod)).prod) := by
  simp only [gillespieEnter]
  rw [List.get?_map]
  rw [List.get?_eq_get hj]
  simp only [Option.map_some']
  congr 1
  exact propensity_foldl_mul _ _ _

/-- Witness for C7 at a concrete self-reaction `2A → C`:
process rate 2, q_list `[(0, 2)]`, state `Q = [5]`; the propensity is
`2 · 5 · 4 = 40`. -/
theorem gillespie_propensity_falling_factorial_witness :
    (0 : ℕ) < [({ rate := 2, q_list := [(0, 2)], delta_list := [(0, -2), (1, 1)] } : GProc)].length ∧
    (gillespieEnter [({ rate := 2, q_list := [(0, 2)], delta_list := [(0, -2), (1, 1)] } : GProc)]
      0 (([5] : List ℕ).map (fun n => (n : ℚ)))).r.get? 0 = some 40 := by
  refine ⟨by decide, ?_⟩
  rw [gillespie_propensity_falling_factorial
    [({ rate := 2, q_list := [(0, 2)], delta_list := [(0, -2), (1, 1)] } : GProc)]
    [5] 0 0 (by decide)]
  norm_num [List.range_succ]

/-! ## Supporting lemmas on the loop primitives -/

theorem getD_set {α : Type} (acc : List α) (k : ℕ) (v : α) (b : ℕ) (d : α) :
    (acc.set k v).getD b d
    = if k = b ∧ b < acc.length then v else acc.getD b d := by
  simp only [List.getD_eq_getElem?_getD, List.getElem?_set]
  by_cases h : k = b
  · subst h
    by_cases hlt : k < acc.length
    · simp [hlt]
    · simp [hlt, List.getElem?_eq_none (Nat.le_of_not_lt hlt)]
  · simp [h]

theorem appendToBuckets_length (i : ℕ) :
    ∀ (ds : List (ℕ × ℚ)) (acc : List (List ℕ)),
    (appendToBuckets i ds acc).length = acc.length := by
  intro ds
  induction ds with
  | nil => intro acc; rfl
  | cons pr ds ih =>
    intro acc
    rw [appendToBuckets, ih, List.length_set]

theorem mem_appendToBuckets (i j b : ℕ) :
    ∀ (ds : List (ℕ × ℚ)) (acc : List (List ℕ)),
    (j ∈ (appendToBuckets i ds acc).getD b [] ↔
      (j ∈ acc.getD b [] ∨ (j = i ∧ b < acc.length ∧ ∃ d : ℚ, (b, d) ∈ ds))) := by
  intro ds
  induction ds with
  | nil => intro acc; simp [appendToBuckets]
  | cons pr ds ih =>
    intro acc
    rw [appendToBuckets, ih, getD_set, List.length_set]
    by_cases hb : pr.1 = b
    · by_cases hlt : b < acc.length
      · simp only [hb, hlt, and_true, if_true, List.mem_append, List.mem_cons,
          List.not_mem_nil, or_false, true_and]
        constructor
        · rintro (⟨hj | hj⟩ | ⟨hj, d, hd⟩)
          · exact Or.inl hj
          · exact Or.inr ⟨hj, pr.2, Or.inl (by rw [← hb])⟩
          · exact Or.inr ⟨hj, d, Or.inr hd⟩
        · rintro (hj | ⟨hj, d, hd | hd⟩)
          · exact Or.inl (Or.inl hj)
          · exact Or.inl (Or.inr hj)
          · exact Or.inr ⟨hj, d, hd⟩
      · simp only [hb, hlt, and_true, if_false, List.mem_cons]
        constructor
        · rintro (hj | ⟨hj, hfalse, _⟩)
          · exact Or.inl hj
          · exact hfalse.elim
        · rintro (hj | ⟨_, hfalse, _⟩)
          · exact Or.inl hj
          · exact hfalse.elim
    · have hcond : ¬ (pr.1 = b ∧ b < acc.length) := fun hc => hb hc.1
      simp only [hcond, if_false, List.mem_cons]
      constructor
      · rintro (hj | ⟨hj, hlt, d, hd⟩)
        · exact Or.inl hj
        · exact Or.inr ⟨hj, hlt, d, Or.inr hd⟩
      · rintro (hj | ⟨hj, hlt, d, hd | hd⟩)
        · exact Or.inl hj
        · exact absurd (congrArg Prod.fst hd).symm hb
        · exact Or.inr ⟨hj, hlt, d, hd⟩

theorem buildUpdateListAux_length :
    ∀ (L : List GProc) (i0 : ℕ) (acc : List (List ℕ)),
    (buildUpdateListAux i0 L acc).length = acc.length := by
  intro L
  induction L with
  | nil => intro i0 acc; rfl
  | cons p rest ih =>
    intro i0 acc
    rw [buildUpdateListAux, ih, appendToBuckets_length]

theorem mem_buildUpdateListAux (b j : ℕ) :
    ∀ (L : List GProc) (i0 : ℕ) (acc : List (List ℕ)),
    (j ∈ (buildUpdateListAux i0 L acc).getD b [] ↔
      (j ∈ acc.getD b [] ∨ (b < acc.length ∧ ∃ off : ℕ, off < L.length ∧ j = i0 + off ∧
        ∃ d : ℚ, (b, d) ∈ (L.getD off default).delta_list))) := by
  intro L
  induction L with
  | nil => intro i0 acc; simp [buildUpdateListAux]
  | cons p rest ih =>
    intro i0 acc
    rw [buildUpdateListAux, ih, mem_appendToBuckets, appendToBuckets_length]
    constructor
    · rintro ((hj | ⟨hj, hlt, d, hd⟩) | ⟨hlt, off, hoff, hjoff, d, hd⟩)
      · exact Or.inl hj
      · exact Or.inr ⟨hlt, 0, by simp, by omega, d, by simpa using hd⟩
      · refine Or.inr ⟨hlt, off + 1, by simpa using hoff, by omega, d, ?_⟩
        simpa using hd
    · rintro (hj | ⟨hlt, off, hoff, hjoff, d, hd⟩)
      · exact Or.inl (Or.inl hj)
      · match off with
        | 0 => exact Or.inl (Or.inr ⟨by omega, hlt, d, by simpa using hd⟩)
        | off + 1 =>
          refine Or.inr ⟨hlt, off, by simpa using hoff, by omega, d, ?_⟩
          simpa using hd

/-- The dependency index that `_build_processes` returns pairs state
position `b` with exactly the process indices whose delta_list touches
`b`. -/
theorem mem_buildUpdateList (ps : List GProc) (size : ℕ) (b j : ℕ) :
    j ∈ (buildUpdateList ps size).getD b [] ↔
      (b < size ∧ j < ps.length ∧ ∃ d : ℚ, (b, d) ∈ (ps.getD j default).delta_list) := by
  rw [buildUpdateList, mem_buildUpdateListAux]
  have hrep : (List.replicate size ([] : List ℕ)).getD b [] = [] := by
    simp [List.getD_eq_getElem?_getD, List.getElem?_replicate]
    by_cases h : b < size <;> simp [h]
  rw [hrep]
  simp only [List.not_mem_nil, false_or, List.length_replicate]
  constructor
  · rintro ⟨hb, off, hoff, hj, d, hd⟩
    exact ⟨hb, by omega, d, by simpa [hj] using hd⟩
  · rintro ⟨hb, hj, d, hd⟩
    exact ⟨hb, j, hj, by omega, d, by simpa using hd⟩

theorem mem_collectUpdates (upd : List (List ℕ)) (k : ℕ) :
    ∀ (ds : List (ℕ × ℚ)) (acc : List ℕ),
    (k ∈ collectUpdates upd ds acc ↔
      (k ∈ acc ∨ ∃ pr ∈ ds, k ∈ upd.getD pr.1 [])) := by
  intro ds
  induction ds with
  | nil => intro acc; simp [collectUpdates]
  | cons pr ds ih =>
    intro acc
    rw [collectUpdates, ih]
    simp only [List.mem_append, List.mem_cons]
    constructor
    · rintro ((hk | hk) | ⟨pr0, hpr0, hk⟩)
      · exact Or.inl hk
      · exact Or.inr ⟨pr, Or.inl rfl, hk⟩
      · exact Or.inr ⟨pr0, Or.inr hpr0, hk⟩
    · rintro (hk | ⟨pr0, hpr0 | hpr0, hk⟩)
      · exact Or.inl (Or.inl hk)
      · exact Or.inl (Or.inr (by rw [hpr0] at hk; exact hk))
      · exact Or.inr ⟨pr0, hpr0, hk⟩

theorem refreshR_length (ps : List GProc) (y : List ℚ) :
    ∀ (ks : List ℕ) (r : List ℚ), (refreshR ps y r ks).length = r.length := by
  intro ks
  induction ks with
  | nil => intro r; rfl
  | cons k ks ih =>
    intro r
    rw [refreshR, ih, List.length_set]

theorem refreshR_getElem? (ps : List GProc) (y : List ℚ) :
    ∀ (ks : List ℕ) (r : List ℚ) (k : ℕ), k < r.length →
    (refreshR ps y r ks)[k]?
    = if k ∈ ks then some (propensity y (ps.getD k default)) else r[k]? := by
  intro ks
  induction ks with
  | nil => intro r k _; simp [refreshR]
  | cons k0 ks ih =>
    intro r k hk
    rw [refreshR, ih _ k (by rw [List.length_set]; exact hk)]
    by_cases hmem : k ∈ ks
    · simp [hmem, List.mem_cons]
    · simp only [hmem, if_false, List.getElem?_set, List.mem_cons]
      by_cases h0 : k0 = k
      · simp [h0, hk]
      · have : ¬ k = k0 := fun h => h0 h.symm
        simp [h0, this, hmem]

theorem applyDeltas_getElem?_not_mem (idx : ℕ) :
    ∀ (ds : List (ℕ × ℚ)) (y : List ℚ), idx ∉ ds.map Prod.fst →
    (applyDeltas ds y)[idx]? = y[idx]? := by
  intro ds
  induction ds with
  | nil => intro y _; rfl
  | cons pr ds ih =>
    intro y hidx
    simp only [List.map_cons, List.mem_cons] at hidx
    push_neg at hidx
    rw [applyDeltas, ih _ hidx.2, List.getElem?_set]
    have : ¬ pr.1 = idx := fun h => hidx.1 h.symm
    simp [this]

theorem propensity_eq_prod (y : List ℚ) (p : GProc) :
    propensity y p
    = p.rate * (p.q_list.map (fun pr =>
        ((List.range pr.2).map
          (fun (j : ℕ) => max 0 (y.getD pr.1 0 - (j : ℚ)))).prod)).prod :=
  propensity_foldl_mul y p.q_list p.rate

theorem propensity_congr (y1 y2 : List ℚ) (p : GProc)
    (h : ∀ pr ∈ p.q_list, y1.getD pr.1 0 = y2.getD pr.1 0) :
    propensity y1 p = propensity y2 p := by
  rw [propensity_eq_prod, propensity_eq_prod]
  congr 1
  congr 1
  apply List.map_congr_left
  intro pr hpr
  rw [h pr hpr]

/-- Core of the incremental-refresh argument: when the dependency index is
the one `_build_processes` builds and every process lists each of its
q_list positions (all below `size`) in its own delta_list, one firing step
leaves the propensity vector equal to a from-scratch recomputation at the
new state. -/
theorem gillespieStep_refresh_exact
    (ps : List GProc) (size : ℕ) (st st1 : GState) (c : ℕ) (nl : ℚ)
    (hq : ∀ p ∈ ps, ∀ pr ∈ p.q_list, pr.1 < size ∧ ∃ d : ℚ, (pr.1, d) ∈ p.delta_list)
    (hr : st.r = ps.map (propensity st.y))
    (hstep : gillespieStep ps (buildUpdateList ps size) c nl st = .ok st1) :
    st1.r = ps.map (propensity st1.y) := by
  rw [gillespieStep] at hstep
  by_cases hsum : st.r.sum = 0
  · rw [if_pos hsum] at hstep
    exact absurd hstep (by simp)
  rw [if_neg hsum] at hstep
  rcases hget : ps.get? c with _ | p
  · rw [hget] at hstep
    exact absurd hstep (by simp)
  rw [hget] at hstep
  simp only [Except.ok.injEq] at hstep
  have hy1 : st1.y = applyDeltas p.delta_list st.y := by rw [← hstep]
  have hr1 : st1.r = refreshR ps (applyDeltas p.delta_list st.y) st.r
      (collectUpdates (buildUpdateList ps size) p.delta_list []) := by rw [← hstep]
  have hrlen : st.r.length = ps.length := by rw [hr, List.length_map]
  apply List.ext_getElem?
  intro k
  by_cases hk : k < ps.length
  · rw [hr1, refreshR_getElem? _ _ _ _ k (by rw [hrlen]; exact hk)]
    have hpsk : ps.getD k default = ps[k] := by
      simp [List.getD_eq_getElem?_getD, List.getElem?_eq_getElem hk]
    have hmapk : (ps.map (propensity st1.y))[k]? = some (propensity st1.y ps[k]) := by
      rw [List.getElem?_map, List.getElem?_eq_getElem hk]
      rfl
    by_cases hmem : k ∈ collectUpdates (buildUpdateList ps size) p.delta_list []
    · rw [if_pos hmem, hmapk, hpsk, hy1]
    · rw [if_neg hmem, hmapk]
      have hrk : st.r[k]? = some (propensity st.y ps[k]) := by
        rw [hr, List.getElem?_map, List.getElem?_eq_getElem hk]
        rfl
      rw [hrk]
      congr 1
      apply propensity_congr
      intro pr hpr
      rcases hq ps[k] (List.getElem_mem hk) pr hpr with ⟨hsize, d, hd⟩
      by_cases htouch : pr.1 ∈ p.delta_list.map Prod.fst
      · exfalso
        apply hmem
        rw [mem_collectUpdates]
        rcases List.mem_map.mp htouch with ⟨pr0, hpr0, hfst⟩
        refine Or.inr ⟨pr0, hpr0, ?_⟩
        rw [hfst, mem_buildUpdateList]
        exact ⟨hsize, hk, d, by rw [hpsk]; exact hd⟩
      · rw [hy1]
        simp only [List.getD_eq_getElem?_getD]
        rw [applyDeltas_getElem?_not_mem _ _ _ htouch]
  · have h1 : st1.r.length ≤ k := by
      rw [hr1, refreshR_length, hrlen]; omega
    have h2 : (ps.map (propensity st1.y)).length ≤ k := by
      rw [List.length_map]; omega
    rw [List.getElem?_eq_none h1, List.getElem?_eq_none h2]

/-! ## C2: dependency index and incremental propensity refresh -/

/-- C2 counterexample: for the one-process table `[∅ → A]` with one state
position, the dependency index built by `_build_processes` pairs position 0
with process 0 although that process's q_list does not contain position 0 —
the index is keyed on delta_list, not q_list as the claim states. -/
theorem dep_index_not_from_q_list :
    ¬ DepIndexFromQList [birthProc] 1 (buildUpdateList [birthProc] 1) := by
  intro h
  rcases (h 0 0).mp (by decide) with ⟨-, -, m, hm⟩
  simp [birthProc] at hm

/-- C2 (amended): the dependency index maps each state position `b` to
exactly the process indices whose delta_list touches `b`; and since every
process built by `_build_processes` lists each q_list position in its own
delta_list (hypothesis `hq`), a firing step that refreshes only the
propensities in the union of dependency sets of the touched positions
leaves the propensity vector equal to a from-scratch recomputation. -/
theorem gillespie_dep_index_and_incremental_refresh
    (ps : List GProc) (size : ℕ) (st st1 : GState) (c : ℕ) (nl : ℚ)
    (hq : ∀ p ∈ ps, ∀ pr ∈ p.q_list, pr.1 < size ∧ ∃ d : ℚ, (pr.1, d) ∈ p.delta_list)
    (hr : st.r = ps.map (propensity st.y))
    (hstep : gillespieStep ps (buildUpdateList ps size) c nl st = .ok st1) :
    (∀ b k : ℕ, k ∈ (buildUpdateList ps size).getD b [] ↔
      (b < size ∧ k < ps.length ∧ ∃ d : ℚ, (b, d) ∈ (ps.getD k default).delta_list))
    ∧ st1.r = ps.map (propensity st1.y) :=
  ⟨fun b k => mem_buildUpdateList ps size b k,
   gillespieStep_refresh_exact ps size st st1 c nl hq hr hstep⟩

/-- Witness for C2 (amended) on the table `[A → ∅, ∅ → A]` over one state
position, starting from `Q = [3]` and firing the decay process. -/
theorem gillespie_dep_index_and_incremental_refresh_witness :
    (∀ b k : ℕ,
        k ∈ (buildUpdateList
          [{ rate := 1, q_list := [(0, 1)], delta_list := [(0, -1)] },
           { rate := 2, q_list := [], delta_list := [(0, 1)] }] 1).getD b [] ↔
        (b < 1 ∧
          k < ([{ rate := 1, q_list := [(0, 1)], delta_list := [(0, -1)] },
                { rate := 2, q_list := [], delta_list := [(0, 1)] }] : List GProc).length ∧
          ∃ d : ℚ, (b, d) ∈ (([{ rate := 1, q_list := [(0, 1)], delta_list := [(0, -1)] },
            { rate := 2, q_list := [], delta_list := [(0, 1)] }] : List GProc).getD k default).delta_list))
    ∧ ({ y0mem := [3], y := [2], r := [2, 2], t := 1/5 } : GState).r
        = ([{ rate := 1, q_list := [(0, 1)], delta_list := [(0, -1)] },
            { rate := 2, q_list := [], delta_list := [(0, 1)] }] : List GProc).map
            (propensity ({ y0mem := [3], y := [2], r := [2, 2], t := 1/5 } : GState).y) :=
  gillespie_dep_index_and_incremental_refresh
    [{ rate := 1, q_list := [(0, 1)], delta_list := [(0, -1)] },
     { rate := 2, q_list := [], delta_list := [(0, 1)] }] 1
    (gillespieEnter
      [{ rate := 1, q_list := [(0, 1)], delta_list := [(0, -1)] },
       { rate := 2, q_list := [], delta_list := [(0, 1)] }] 0 [3])
    { y0mem := [3], y := [2], r := [2, 2], t := 1/5 } 0 1
    (by
      intro p hp pr hpr
      simp only [List.mem_cons, List.not_mem_nil, or_false] at hp
      rcases hp with hp | hp
      · subst hp
        simp only [List.mem_cons, List.not_mem_nil, or_false] at hpr
        subst hpr
        exact ⟨by norm_num, -1, by simp⟩
      · subst hp
        simp at hpr)
    rfl
    (by
      norm_num [gillespieStep, gillespieEnter, propensity, collectUpdates,
        applyDeltas, refreshR, buildUpdateList, buildUpdateListAux, appendToBuckets,
        List.range_succ, List.range_zero, List.foldl_cons, List.foldl_nil])

/-! ## C1: a segment with zero total propensity -/

/-- C1 (failing input): on a process table whose total propensity at the
segment start is zero (one process `A → ∅` with `Q = [0]`), the propagator
does not halt the segment with `Q` unchanged and `t = t_end`: the division
`1/r.sum()` and the NaN probability vector make `np.random.choice` raise,
which the embedding records as an error result. -/
theorem gillespie_zero_total_propensity_raises :
    Gillespie [{ rate := 1, q_list := [(0, 1)], delta_list := [(0, -1)] }]
        [[0]] (0, 1) [0] [(0, 1)]
      = .error "ValueError: probabilities contain NaN" := by
  norm_num [Gillespie, gillespieRun, gillespieStep, gillespieEnter, propensity,
    List.range_succ, List.range_zero, List.foldl_cons, List.foldl_nil]

/-! ## C9: the propagator never mutates its argument `y0` -/

theorem gillespieStep_y0mem (ps : List GProc) (upd : List (List ℕ)) (c : ℕ)
    (nl : ℚ) (st st1 : GState)
    (h : gillespieStep ps upd c nl st = .ok st1) : st1.y0mem = st.y0mem := by
  rw [gillespieStep] at h
  by_cases hsum : st.r.sum = 0
  · rw [if_pos hsum] at h
    exact absurd h (by simp)
  · rw [if_neg hsum] at h
    rcases hget : ps.get? c with _ | p
    · rw [hget] at h
      exact absurd h (by simp)
    · rw [hget] at h
      simp only [Except.ok.injEq] at h
      rw [← h]

theorem gillespieRun_y0mem (ps : List GProc) (upd : List (List ℕ)) (tEnd : ℚ) :
    ∀ (stream : List (ℕ × ℚ)) (st st1 : GState),
    gillespieRun ps upd tEnd stream st = .ok st1 → st1.y0mem = st.y0mem := by
  intro stream
  induction stream with
  | nil =>
    intro st st1 h
    rw [gillespieRun] at h
    by_cases ht : st.t < tEnd
    · rw [if_pos ht] at h
      exact absurd h (by simp)
    · rw [if_neg ht] at h
      simp only [Except.ok.injEq] at h
      rw [← h]
  | cons cn rest ih =>
    intro st st1 h
    obtain ⟨c, nl⟩ := cn
    rw [gillespieRun] at h
    by_cases ht : st.t < tEnd
    · rw [if_pos ht] at h
      rcases hstep : gillespieStep ps upd c nl st with e | st2
      · rw [hstep] at h
        exact absurd h (by simp)
      · rw [hstep] at h
        rw [ih st2 st1 h, gillespieStep_y0mem ps upd c nl st st2 hstep]
    · rw [if_neg ht] at h
      simp only [Except.ok.injEq] at h
      rw [← h]

/-- C9: the Gillespie propagator never mutates its input array `y0`: it
copies it on entry, applies all delta updates to the copy, and the array
the caller passed holds its original values after the call. -/
theorem gillespie_does_not_mutate_y0
    (ps : List GProc) (upd : List (List ℕ)) (tr : ℚ × ℚ) (y0 : List ℚ)
    (stream : List (ℕ × ℚ)) (out : List ℚ × ℚ × List ℚ)
    (h : Gillespie ps upd tr y0 stream = .ok out) :
    out.2.2 = y0 := by
  rw [Gillespie] at h
  rcases hrun : gillespieRun ps upd tr.2 stream (gillespieEnter ps tr.1 y0) with e | st
  · rw [hrun] at h
    exact absurd h (by simp)
  · rw [hrun] at h
    simp only [Except.ok.injEq] at h
    have h0 := gillespieRun_y0mem ps upd tr.2 stream _ st hrun
    rw [← h]
    simpa [gillespieEnter] using h0

/-- Witness for C9: a one-step birth run that ends past `t_end`; the
returned `y0` cell equals the input `[0]`. -/
theorem gillespie_does_not_mutate_y0_witness :
    Gillespie [{ rate := 1, q_list := [], delta_list := [(0, 1)] }]
        [[0]] (0, 1) [0] [(0, 2)]
      = .ok ([1], 2, [0])
    ∧ (([1], 2, [0]) : List ℚ × ℚ × List ℚ).2.2 = [0] :=
  ⟨by
    norm_num [Gillespie, gillespieRun, gillespieStep, gillespieEnter, propensity,
      collectUpdates, applyDeltas, refreshR,
      List.range_succ, List.range_zero, List.foldl_cons, List.foldl_nil],
   gillespie_does_not_mutate_y0
    [{ rate := 1, q_list := [], delta_list := [(0, 1)] }]
    [[0]] (0, 1) [0] [(0, 2)] ([1], 2, [0])
    (by
      norm_num [Gillespie, gillespieRun, gillespieStep, gillespieEnter, propensity,
        collectUpdates, applyDeltas, refreshR,
        List.range_succ, List.range_zero, List.foldl_cons, List.foldl_nil])⟩

/-! ## C4: IsotropicConnection with a scalar rate -/

/-- C4 (failing input): constructing an `IsotropicConnection` over
`{A: 5}` does not succeed with the entry normalized to `(5, 5)`: the
normalization loop reads the undefined name `k` and raises `NameError` on
its first iteration. -/
theorem isotropic_scalar_init_raises_name_error :
    isotropicInit [("A", RateVal.scalar 5)]
      = .error "NameError: name k is not defined" := rfl

/-! ## C10: reverse is an involution on the anisotropic rate table -/

theorem anisotropicInit_map_tuple (f : ℚ × ℚ → ℚ × ℚ) :
    ∀ (l : List (String × (ℚ × ℚ))),
    anisotropicInit
      (l.map (fun sv => (sv.1, RateVal.tuple [(f sv.2).1, (f sv.2).2])))
    = .ok (l.map (fun sv => (sv.1, f sv.2))) := by
  intro l
  induction l with
  | nil => rfl
  | cons sv rest ih =>
    simp only [List.map_cons, anisotropicInit, anisoNormEntry, itoPerSec, ih]

/-- C10: for every constructed `AnisotropicConnection` (whose
`species_rates` values are rate pairs), `reverse` flips each
`(k_out, k_in)` to `(k_in, k_out)`, and applying it twice restores the
original rate table. -/
theorem anisotropic_reverse_involution (c : AnisotropicConnection) :
    ∃ c1 c2 : AnisotropicConnection,
      c.reverse = .ok c1 ∧ c1.reverse = .ok c2
      ∧ c1.species_rates = c.species_rates.map (fun sv => (sv.1, flip_tuple sv.2))
      ∧ c2.species_rates = c.species_rates := by
  refine ⟨{ species_rates := c.species_rates.map (fun sv => (sv.1, flip_tuple sv.2)),
            dim := 3 },
          { species_rates := c.species_rates, dim := 3 }, ?_, ?_, rfl, rfl⟩
  · rw [AnisotropicConnection.reverse, mkAnisotropicConnection,
      anisotropicInit_map_tuple flip_tuple c.species_rates]
  · rw [AnisotropicConnection.reverse, mkAnisotropicConnection]
    simp only [List.map_map]
    have hcomp :
        anisotropicInit
          (c.species_rates.map
            ((fun sv => (sv.1, RateVal.tuple [(flip_tuple sv.2).1, (flip_tuple sv.2).2]))
              ∘ (fun sv => (sv.1, flip_tuple sv.2))))
        = .ok (c.species_rates.map (fun sv => (sv.1, flip_tuple (flip_tuple sv.2)))) := by
      have h0 := anisotropicInit_map_tuple (fun t => flip_tuple (flip_tuple t)) c.species_rates
      simpa [Function.comp] using h0
    rw [hcomp]
    simp [flip_tuple]

/-! ## C6: the Min reporter payload -/

/-- C6 (failing input): on selection `[0, 1]` and `Q = [1, 2]` the Min
reporter records the payload `(2, 1)` — `np.max` and `np.argmax` of the
slice, a copy of `MaxReporter.report` — not the `(1, 0)` = (min, argmin)
that the claim (and the class docstring) promise. -/
theorem min_reporter_records_max_argmax :
    minReporterReport [0, 1] 0 [1, 2] [] = .ok [(0, 2, 1)] := by
  norm_num [minReporterReport, fancyIndex, npMax, npArgmax, npArgmaxAux]

/-! ## C3: volume dispatch in the ODE connection terms -/

/-- C3 (failing input): one DivByV edge (`k_out = 6`, `k_in = 4`) to a
non-reservoir neighbor of volume 3, from a compartment of volume 2.
Because `_build_dqdt` applies `isinstance(conn, DivByVConnection)` to the
`(neighbor, connection)` tuple, the test is never true and the terms keep
the undivided rates 6 and 4 — not `6/2` and `4/3` as the claim requires of
a DivByV edge. -/
theorem ode_conn_terms_ignore_divbyv :
    buildConnTerms 0 "A" 2 (fun _ => 1)
      [("nbr", ({ isReservoir := false, volume := 3 },
                { isDivByV := true, species_rates := [("A", (6, 4))] }))]
    = ([{ rate := 6, q_idxs := [0], n_per := 1 }],
       [{ rate := 4, q_idxs := [1], n_per := 1 }], []) := rfl

/-! ## C5: the 2D array constructor -/

/-- C5 (failing input): `CompartmentArray2D('a', [0,1,2], [0,1,2], conn)`
(a 2×2 grid).  The creation loops run over `range(nx-1) × range(ny-1)`, so
only compartment `(0,0)` exists, and the wiring loop's first neighbor
access `self.compartments[(1, 0)]` raises KeyError — the constructor never
produces the claimed nx·ny wired compartments. -/
theorem array2D_wiring_key_error :
    array2DInit "a" [0, 1, 2] [0, 1, 2] (false, false)
      = .error "KeyError: (1, 0)" := rfl

/-! ## C8: State → dataframe → State round trip -/

theorem dictGet_cons {α β : Type} [DecidableEq α] (kv : α × β)
    (rest : List (α × β)) (q : α) :
    dictGet (kv :: rest) q = if kv.1 = q then some kv.2 else dictGet rest q := by
  by_cases h : kv.1 = q
  · rw [if_pos h, dictGet, List.find?_cons_of_pos _ (by simp [h]), Option.map_some']
  · rw [if_neg h, dictGet, List.find?_cons_of_neg _ (by simp [h])]
    rfl

theorem dictGet_dictSet {α β : Type} [DecidableEq α] (k : α) (v : β) (q : α) :
    ∀ (d : List (α × β)),
    dictGet (dictSet d k v) q = if k = q then some v else dictGet d q := by
  intro d
  induction d with
  | nil =>
    rw [dictSet, dictGet_cons]
  | cons kv rest ih =>
    rw [dictSet]
    by_cases hk : kv.1 = k
    · rw [if_pos hk, dictGet_cons, dictGet_cons]
      by_cases hq : k = q
      · simp [hq]
      · have hkvq : ¬ kv.1 = q := by rw [hk]; exact hq
        simp [hq, hkvq]
    · rw [if_neg hk, dictGet_cons, dictGet_cons, ih]
      by_cases hq : kv.1 = q
      · have hkq : ¬ k = q := fun h => hk (hq.trans h.symm)
        simp [hq, hkq]
      · simp [hq]

theorem indexLookup_dfIndexInsert (idx : List (String × List (String × ℕ)))
    (c0 s0 : String) (i : ℕ) (c s : String) :
    indexLookup (dfIndexInsert idx c0 s0 i) c s
    = if c0 = c ∧ s0 = s then some i else indexLookup idx c s := by
  rw [dfIndexInsert]
  rcases h0 : dictGet idx c0 with _ | d0
  · by_cases hc : c0 = c
    · have h1 : indexLookup (dictSet idx c0 (dictSet [] s0 i)) c s
          = dictGet (dictSet [] s0 i) s := by
        rw [indexLookup, dictGet_dictSet, if_pos hc]
      rw [h1, dictGet_dictSet]
      by_cases hs : s0 = s
      · simp [hc, hs]
      · have hc0 : dictGet idx c = none := by rw [← hc]; exact h0
        rw [if_neg hs, if_neg (fun hh => hs hh.2), indexLookup, hc0]
        rfl
    · have h1 : indexLookup (dictSet idx c0 (dictSet [] s0 i)) c s
          = indexLookup idx c s := by
        rw [indexLookup, dictGet_dictSet, if_neg hc, indexLookup]
      rw [h1, if_neg (fun h => hc h.1)]
  · by_cases hc : c0 = c
    · have h1 : indexLookup (dictSet idx c0 (dictSet d0 s0 i)) c s
          = dictGet (dictSet d0 s0 i) s := by
        rw [indexLookup, dictGet_dictSet, if_pos hc]
      rw [h1, dictGet_dictSet]
      by_cases hs : s0 = s
      · simp [hc, hs]
      · have hc0 : dictGet idx c = some d0 := by rw [← hc]; exact h0
        rw [if_neg hs, if_neg (fun hh => hs hh.2), indexLookup, hc0]
    · have h1 : indexLookup (dictSet idx c0 (dictSet d0 s0 i)) c s
          = indexLookup idx c s := by
        rw [indexLookup, dictGet_dictSet, if_neg hc, indexLookup]
      rw [h1, if_neg (fun h => hc h.1)]

theorem indexLookup_buildDfIndex (c s : String) :
    ∀ (rows : List (ℕ × String × String))
      (idx : List (String × List (String × ℕ))),
    indexLookup (buildDfIndex rows idx) c s
    = (match rows.reverse.find? (rowMatches c s) with
       | some r => some r.1
       | none => indexLookup idx c s) := by
  intro rows
  induction rows with
  | nil => intro idx; simp [buildDfIndex]
  | cons row rows ih =>
    intro idx
    obtain ⟨i0, c0, s0⟩ := row
    rw [buildDfIndex, ih, List.reverse_cons, List.find?_append]
    rcases hfind : rows.reverse.find? (rowMatches c s) with _ | r
    · simp only [Option.none_or]
      by_cases hm : rowMatches c s (i0, c0, s0) = true
      · rw [List.find?_cons_of_pos _ hm]
        rw [indexLookup_dfIndexInsert]
        have hcs : c0 = c ∧ s0 = s := by simpa [rowMatches] using hm
        simp [hcs]
      · rw [List.find?_cons_of_neg _ hm]
        simp only [List.find?_nil]
        rw [indexLookup_dfIndexInsert]
        have hcs : ¬ (c0 = c ∧ s0 = s) := by simpa [rowMatches] using hm
        simp [hcs]
    · rfl

theorem dfRows_mem (df : DFrame) (r : ℕ × String × String) :
    r ∈ dfRows df ↔
      (r.1 < df.species.length ∧
        r.2.1 = df.compartment.getD r.1 "" ∧ r.2.2 = df.species.getD r.1 "") := by
  rw [dfRows, List.mem_map]
  constructor
  · rintro ⟨i, hi, hr⟩
    rw [List.mem_range] at hi
    rw [← hr]
    exact ⟨hi, rfl, rfl⟩
  · rintro ⟨h1, h2, h3⟩
    refine ⟨r.1, List.mem_range.mpr h1, ?_⟩
    rw [← h2, ← h3]

/-- C8: exporting a State to a dataframe and constructing a new State from
that dataframe yields the same species array, the same compartment array,
and the same index mapping (q is reset to zeros and not required). -/
theorem state_dataframe_roundtrip (st : PyState)
    (hlen : st.compartment.length = st.species.length)
    (hdist : (st.compartment.zip st.species).Nodup)
    (hcons : IndexConsistent st) :
    (init_from_df (to_dataframe st)).species = st.species
    ∧ (init_from_df (to_dataframe st)).compartment = st.compartment
    ∧ ∀ c s : String, stateIndexGet (init_from_df (to_dataframe st)) c s
        = stateIndexGet st c s := by
  refine ⟨rfl, rfl, ?_⟩
  intro c s
  have hrows : stateIndexGet (init_from_df (to_dataframe st)) c s
      = (match (dfRows (to_dataframe st)).reverse.find? (rowMatches c s) with
         | some r => some r.1
         | none => none) := by
    rw [stateIndexGet, init_from_df, indexLookup_buildDfIndex]
    cases hfr : (dfRows (to_dataframe st)).reverse.find? (rowMatches c s) with
    | none => rfl
    | some r => rfl
  have hstep : ∀ r ∈ dfRows (to_dataframe st), rowMatches c s r = true →
      stateIndexGet st c s = some r.1 := by
    intro r hr hm
    rw [dfRows_mem] at hr
    simp only [to_dataframe] at hr
    obtain ⟨hlt, hc', hs'⟩ := hr
    have hmm : r.2.1 = c ∧ r.2.2 = s := by simpa [rowMatches] using hm
    have hltc : r.1 < st.compartment.length := by
      rw [hlen]; exact hlt
    have hcomp : st.compartment[r.1]? = some c := by
      rw [List.getElem?_eq_getElem hltc]
      have hgd : st.compartment.getD r.1 "" = st.compartment[r.1] := by
        simp [List.getD_eq_getElem?_getD, List.getElem?_eq_getElem hltc]
      rw [← hgd, ← hc', hmm.1]
    have hspec : st.species[r.1]? = some s := by
      rw [List.getElem?_eq_getElem hlt]
      have hgd : st.species.getD r.1 "" = st.species[r.1] := by
        simp [List.getD_eq_getElem?_getD, List.getElem?_eq_getElem hlt]
      rw [← hgd, ← hs', hmm.2]
    exact (hcons c s r.1).mpr ⟨hcomp, hspec⟩
  rcases hs : stateIndexGet st c s with _ | i
  · rw [hrows]
    have hnone : (dfRows (to_dataframe st)).reverse.find? (rowMatches c s) = none := by
      rw [List.find?_eq_none]
      intro r hr hm
      have hcontra := hstep r (List.mem_reverse.mp hr) hm
      rw [hs] at hcontra
      exact Option.noConfusion hcontra
    rw [hnone]
  · rcases (hcons c s i).mp hs with ⟨hcomp, hspec⟩
    have hlt : i < st.species.length :=
      (List.getElem?_eq_some_iff.mp hspec).1
    have hmemrow : ((i, c, s) : ℕ × String × String) ∈ dfRows (to_dataframe st) := by
      rw [dfRows_mem]
      simp only [to_dataframe]
      refine ⟨hlt, ?_, ?_⟩
      · show c = st.compartment.getD i ""
        rw [List.getD_eq_getElem?_getD, hcomp]
        rfl
      · show s = st.species.getD i ""
        rw [List.getD_eq_getElem?_getD, hspec]
        rfl
    have hsome : ((dfRows (to_dataframe st)).reverse.find? (rowMatches c s)).isSome := by
      rw [List.find?_isSome]
      exact ⟨(i, c, s), List.mem_reverse.mpr hmemrow, by simp [rowMatches]⟩
    rcases hfind : (dfRows (to_dataframe st)).reverse.find? (rowMatches c s) with _ | r
    · rw [hfind] at hsome
      exact absurd hsome (by simp)
    · have hrm := List.find?_some hfind
      have hrmem := List.mem_reverse.mp (List.mem_of_find?_eq_some hfind)
      have heq := hstep r hrmem hrm
      rw [hs] at heq
      rw [hrows, hfind]
      exact heq.symm

/-- Witness for C8 at a one-row state (species `A` in compartment `c`). -/
theorem state_dataframe_roundtrip_witness :
    (init_from_df (to_dataframe sampleState)).species = sampleState.species
    ∧ (init_from_df (to_dataframe sampleState)).compartment = sampleState.compartment
    ∧ ∀ c s : String, stateIndexGet (init_from_df (to_dataframe sampleState)) c s
        = stateIndexGet sampleState c s :=
  state_dataframe_roundtrip sampleState rfl (by simp [sampleState])
    (by
      intro c s i
      constructor
      · intro h
        rw [stateIndexGet, sampleState, indexLookup] at h
        by_cases hc : ("c" : String) = c
        · subst hc
          by_cases hs0 : ("A" : String) = s
          · subst hs0
            simp [dictGet_cons, dictGet] at h
            subst h
            simp [sampleState]
          · simp [dictGet_cons, hs0, dictGet] at h
        · simp [dictGet_cons, hc, dictGet] at h
      · rintro ⟨h1, h2⟩
        cases i with
        | zero =>
          simp only [sampleState, List.getElem?_cons_zero, Option.some.injEq] at h1 h2
          rw [stateIndexGet, sampleState, indexLookup]
          simp [dictGet_cons, h1, h2]
        | succ n =>
          simp [sampleState] at h1)

end OpenRXN
